import Mathlib

/-!
Verification of the github-db mirror: a shallow embedding of the entity
upserter (`src/database/updates.rs`), the request queue (`src/lib.rs`,
`src/requests/add.rs`), the rate budgeter (`src/requests/limits.rs`) and the
request handler (`src/requests/handle.rs`), with theorems settling the
frozen claims about the natural-language specification.

Conventions of the embedding:
- SQLite tables become Lean lists of row structures; a row handle
  (`TableRow<T>`) becomes the row's unique key (`github_id` for users,
  `name` for labels, `number` for the shared issue/PR row, the key pair
  for link rows).
- `i64` becomes `Int`; the only place where wrap-around is modelled is the
  `AtomicI64` sequence counter (`wrap_i64`).
- `f64` rate arithmetic becomes exact `ℚ` arithmetic; `Instant` becomes a
  `ℚ` timestamp passed in explicitly, `Utc::now()` an `Int` parameter.
- Each `ensure_*` routine is split into a `*_core` function computing the
  new database, the change classification this call reports through
  `status.update(..)` (`Unchanged` when the source makes no such call),
  and the row key; the function with the source's name applies the
  reported classification to the threaded status exactly as the source's
  `&mut status` does.
-/

namespace GithubDb

/-- `ProcessStatus` from `src/database/updates.rs`; the discriminants
mirror the Rust declaration order `New = 0, Updated = 1, Unchanged = 2`. -/
inductive ProcessStatus where
  | New
  | Updated
  | Unchanged
deriving DecidableEq, Repr

namespace ProcessStatus

/-- The Rust `as usize` cast on `ProcessStatus`. -/
def toNat : ProcessStatus → Nat
  | .New => 0
  | .Updated => 1
  | .Unchanged => 2

/-- `ProcessStatus::update`: `if (other as usize) < (*self as usize) { *self = other }`. -/
def update (s other : ProcessStatus) : ProcessStatus :=
  if other.toNat < s.toNat then other else s

end ProcessStatus

/-- The binary minimum under the order New < Updated < Unchanged
(the order of §4.1 / P2 of the spec). -/
def statusMin (a b : ProcessStatus) : ProcessStatus :=
  if a.toNat ≤ b.toNat then a else b

/-- Observed author fields read by `ensure_user_exists`
(`octocrab::models::Author`). -/
structure AuthorObs where
  id : Int
  login : String
  name : Option String
deriving DecidableEq, Repr

/-- Observed label fields read by `ensure_label_exists`. -/
structure LabelObs where
  name : String
  description : Option String
  color : String
deriving DecidableEq, Repr

/-- `octocrab::models::IssueState`. -/
inductive IssueState where
  | Open
  | Closed
deriving DecidableEq, Repr

/-- `octocrab::models::AuthorAssociation`; `NoneAssoc` stands for the
upstream `None` variant. -/
inductive AuthorAssociationObs where
  | Collaborator
  | Contributor
  | FirstTimer
  | FirstTimeContributor
  | Mannequin
  | Member
  | NoneAssoc
  | Owner
  | Other (s : String)
deriving DecidableEq, Repr

/-- The string the `match` in `ensure_shared_exists` stores for each
author-association discriminant. -/
def assocString : AuthorAssociationObs → String
  | .Collaborator => "Collaborator"
  | .Contributor => "Contributor"
  | .FirstTimer => "FirstTimer"
  | .FirstTimeContributor => "FirstTimeContributor"
  | .Mannequin => "Mannequin"
  | .Member => "Member"
  | .NoneAssoc => "None"
  | .Owner => "Owner"
  | .Other o => o

/-! Rows of the v2 schema (`src/database/schema.rs`). -/

/-- `User` row; unique by `github_id`. -/
structure UserRow where
  github_id : Int
  name : String
  display_name : String
deriving DecidableEq, Repr

/-- `Label` row; unique by `name`. -/
structure LabelRow where
  name : String
  description : String
  color : String
deriving DecidableEq, Repr

/-- `Repo` row; unique by the pair. -/
structure RepoRow where
  organization : String
  name : String
deriving DecidableEq, Repr

/-- `IssuePullRequestShared` row; unique by `number`.  Foreign keys are
stored as row keys: `author`/`closed_by` hold a user's `github_id`. -/
structure SharedRow where
  number : Int
  title : String
  description : String
  author : Int
  lock_reason : Option String
  created_timestamp : Int
  updated_timestamp : Int
  closed_at_timestamp : Option Int
  repo : RepoRow
  state_reason : Option Int
  closed_by : Option Int
  author_association : String
deriving DecidableEq, Repr

/-- `PullRequest` row; unique by `shared` (the shared row's `number`).
Rust stores booleans as `i64`, kept as `Int` here. -/
structure PullRequestRow where
  shared : Int
  draft : Int
  maintainer_can_modify : Int
  num_additions : Int
  num_deletions : Int
  num_changed_files : Int
  num_commits : Int
  merged_at_timestamp : Option Int
  merge_commit_sha : Option String
  merged_by : Option Int
  head_sha : Option String
  base_sha : Option String
  mergeable : Int
  rebaseable : Int
  mergeable_state : Int
deriving DecidableEq, Repr

/-- `Issue` row; unique by `shared`. -/
structure IssueRow where
  shared : Int
deriving DecidableEq, Repr

/-- `Assignment` row; unique by `(user, issue_or_pr)`. -/
structure AssignmentRow where
  user : Int
  issue_or_pr : Int
  outdated : Int
deriving DecidableEq, Repr

/-- `LabelLink` row; unique by `(issue_or_pr, label)`. -/
structure LabelLinkRow where
  issue_or_pr : Int
  label : String
  outdated : Int
deriving DecidableEq, Repr

/-- `Comment` row; unique by `comment_id`. -/
structure CommentRow where
  comment_id : Int
  author : Int
  text : String
  issue_or_pr : Int
  created_timestamp : Int
  updated_timestamp : Int
deriving DecidableEq, Repr

/-- The mirrored store: the tables of the v2 schema that the upserter
touches. -/
structure Db where
  users : List UserRow
  labels : List LabelRow
  repos : List RepoRow
  shared : List SharedRow
  issues : List IssueRow
  prs : List PullRequestRow
  assignments : List AssignmentRow
  labelLinks : List LabelLinkRow
  comments : List CommentRow
deriving DecidableEq, Repr

/-- The empty store. -/
def Db.empty : Db := ⟨[], [], [], [], [], [], [], [], []⟩

/-- Rust `bool as i64`. -/
def boolToInt (b : Bool) : Int := if b then 1 else 0

/-- `ensure_user_exists`, decomposed: new database, the classification
this call reports (insert succeeded ⇒ `Updated`; conflict ⇒ only
untracked writes of `name`/`display_name`, so `Unchanged`), and the row
key. -/
def ensure_user_core (db : Db) (author : AuthorObs) : Db × ProcessStatus × Int :=
  let display_name := author.name.getD author.login
  if db.users.any (fun u => u.github_id == author.id) then
    ({ db with users := db.users.map fun u =>
        if u.github_id == author.id then
          { u with name := author.login, display_name := display_name }
        else u },
     .Unchanged, author.id)
  else
    ({ db with users := db.users ++ [⟨author.id, author.login, display_name⟩] },
     .Updated, author.id)

/-- `ensure_user_exists` with the `&mut status` threading of the source. -/
def ensure_user_exists (db : Db) (status : ProcessStatus) (author : AuthorObs) :
    Db × ProcessStatus × Int :=
  let r := ensure_user_core db author
  (r.1, status.update r.2.1, r.2.2)

/-- `ensure_label_exists`, decomposed.  On conflict the source writes
`color` unconditionally and `description` only when observed, both
untracked; a successful insert reports `Updated`. -/
def ensure_label_core (db : Db) (l : LabelObs) : Db × ProcessStatus × String :=
  if db.labels.any (fun r => r.name == l.name) then
    ({ db with labels := db.labels.map fun r =>
        if r.name == l.name then
          { r with color := l.color, description := l.description.getD r.description }
        else r },
     .Unchanged, l.name)
  else
    ({ db with labels := db.labels ++ [⟨l.name, l.description.getD "", l.color⟩] },
     .Updated, l.name)

/-- `ensure_label_exists` with the status threading of the source. -/
def ensure_label_exists (db : Db) (status : ProcessStatus) (l : LabelObs) :
    Db × ProcessStatus × String :=
  let r := ensure_label_core db l
  (r.1, status.update r.2.1, r.2.2)

/-- `txn.find_or_insert(Repo { organization, name })`: no status effect. -/
def find_or_insert_repo (db : Db) (repo : RepoRow) : Db × RepoRow :=
  if db.repos.any (fun r => r == repo) then (db, repo)
  else ({ db with repos := db.repos ++ [repo] }, repo)

/-- `ensure_shared_exists`, decomposed.  A successful insert reports
`New`; on conflict only the tracked `updated_timestamp` write may report
`Updated` (every other field is written through untracked: `title` and
`description` only when observed, `author_association` only when the
observation carried one, the rest unconditionally). -/
def ensure_shared_core (db : Db) (user : Int) (repo : RepoRow) (number : Int)
    (title : Option String) (body : Option String) (lock_reason : Option String)
    (created_timestamp : Int) (updated_timestamp : Int)
    (closed_at_timestamp : Option Int) (state_reason : Option Int)
    (closed_by : Option Int) (author_association : Option AuthorAssociationObs) :
    Db × ProcessStatus × Int :=
  let association_given := author_association.isSome
  let assoc := assocString (author_association.getD .NoneAssoc)
  match db.shared.find? (fun r => r.number == number) with
  | some old =>
    ({ db with shared := db.shared.map fun r =>
        if r.number == number then
          { r with
              title := title.getD r.title
              description := body.getD r.description
              lock_reason := lock_reason
              author := user
              created_timestamp := created_timestamp
              updated_timestamp := updated_timestamp
              closed_at_timestamp := closed_at_timestamp
              state_reason := state_reason
              closed_by := closed_by
              author_association := if association_given then assoc else r.author_association }
        else r },
     (if old.updated_timestamp ≠ updated_timestamp then .Updated else .Unchanged),
     number)
  | none =>
    ({ db with shared := db.shared ++
        [⟨number, title.getD "", body.getD "", user, lock_reason, created_timestamp,
          updated_timestamp, closed_at_timestamp, repo, state_reason, closed_by, assoc⟩] },
     .New, number)

/-- `ensure_shared_exists` with the status threading of the source. -/
def ensure_shared_exists (db : Db) (status : ProcessStatus) (user : Int) (repo : RepoRow)
    (number : Int) (title : Option String) (body : Option String)
    (lock_reason : Option String) (created_timestamp : Int) (updated_timestamp : Int)
    (closed_at_timestamp : Option Int) (state_reason : Option Int)
    (closed_by : Option Int) (author_association : Option AuthorAssociationObs) :
    Db × ProcessStatus × Int :=
  let r := ensure_shared_core db user repo number title body lock_reason
    created_timestamp updated_timestamp closed_at_timestamp state_reason
    closed_by author_association
  (r.1, status.update r.2.1, r.2.2)

/-- `ensure_issue_exists`, decomposed: insert reports `New`, conflict
touches nothing. -/
def ensure_issue_core (db : Db) (shared : Int) : Db × ProcessStatus :=
  if db.issues.any (fun r => r.shared == shared) then (db, .Unchanged)
  else ({ db with issues := db.issues ++ [⟨shared⟩] }, .New)

/-- `ensure_issue_exists` with the status threading of the source. -/
def ensure_issue_exists (db : Db) (status : ProcessStatus) (shared : Int) :
    Db × ProcessStatus :=
  let r := ensure_issue_core db shared
  (r.1, status.update r.2)

/-- `ensure_pr_exists`, decomposed.  A successful insert reports `New`;
on conflict every field is overwritten untracked (so the call reports
`Unchanged`), including the optional merged fields, while `head_sha` and
`base_sha` are always written as `some`. -/
def ensure_pr_core (db : Db) (shared : Int) (draft : Bool) (maintainer_can_modify : Bool)
    (num_additions num_deletions num_changed_files num_commits : Int)
    (merged_at_timestamp : Option Int) (merge_commit_sha : Option String)
    (merged_by : Option Int) (head_sha base_sha : String)
    (mergeable rebaseable : Bool) (mergeable_state : Int) : Db × ProcessStatus :=
  if db.prs.any (fun r => r.shared == shared) then
    ({ db with prs := db.prs.map fun r =>
        if r.shared == shared then
          { r with
              draft := boolToInt draft
              maintainer_can_modify := boolToInt maintainer_can_modify
              num_additions := num_additions
              num_deletions := num_deletions
              num_changed_files := num_changed_files
              num_commits := num_commits
              merged_at_timestamp := merged_at_timestamp
              merge_commit_sha := merge_commit_sha
              merged_by := merged_by
              head_sha := some head_sha
              base_sha := some base_sha
              mergeable := boolToInt mergeable
              rebaseable := boolToInt rebaseable
              mergeable_state := mergeable_state }
        else r },
     .Unchanged)
  else
    ({ db with prs := db.prs ++
        [⟨shared, boolToInt draft, boolToInt maintainer_can_modify, num_additions,
          num_deletions, num_changed_files, num_commits, merged_at_timestamp,
          merge_commit_sha, merged_by, some head_sha, some base_sha,
          boolToInt mergeable, boolToInt rebaseable, mergeable_state⟩] },
     .New)

/-- `ensure_pr_exists` with the status threading of the source. -/
def ensure_pr_exists (db : Db) (status : ProcessStatus) (shared : Int) (draft : Bool)
    (maintainer_can_modify : Bool)
    (num_additions num_deletions num_changed_files num_commits : Int)
    (merged_at_timestamp : Option Int) (merge_commit_sha : Option String)
    (merged_by : Option Int) (head_sha base_sha : String)
    (mergeable rebaseable : Bool) (mergeable_state : Int) : Db × ProcessStatus :=
  let r := ensure_pr_core db shared draft maintainer_can_modify num_additions
    num_deletions num_changed_files num_commits merged_at_timestamp
    merge_commit_sha merged_by head_sha base_sha mergeable rebaseable mergeable_state
  (r.1, status.update r.2)

/-- `ensure_comment_exists`, decomposed.  Insert reports `New`; on
conflict `author`/`created_timestamp` are written untracked, `text` only
when observed, and the tracked `updated_timestamp` reports `Updated` when
it differs. -/
def ensure_comment_core (db : Db) (comment_id : Int) (author : Int)
    (issue_or_pr : Int) (text : Option String)
    (created_timestamp updated_timestamp : Int) : Db × ProcessStatus :=
  match db.comments.find? (fun r => r.comment_id == comment_id) with
  | some old =>
    ({ db with comments := db.comments.map fun r =>
        if r.comment_id == comment_id then
          { r with
              author := author
              text := text.getD r.text
              created_timestamp := created_timestamp
              updated_timestamp := updated_timestamp }
        else r },
     (if old.updated_timestamp ≠ updated_timestamp then .Updated else .Unchanged))
  | none =>
    ({ db with comments := db.comments ++
        [⟨comment_id, author, text.getD "", issue_or_pr, created_timestamp,
          updated_timestamp⟩] },
     .New)

/-- `ensure_comment_exists` with the status threading of the source. -/
def ensure_comment_exists (db : Db) (status : ProcessStatus) (comment_id : Int)
    (author : Int) (issue_or_pr : Int) (text : Option String)
    (created_timestamp updated_timestamp : Int) : Db × ProcessStatus :=
  let r := ensure_comment_core db comment_id author issue_or_pr text
    created_timestamp updated_timestamp
  (r.1, status.update r.2)

/-! ### Membership reconciliation -/

/-- Mark every `Assignment` rooted at `shared` with `outdated = 1`. -/
def markAssignmentsOutdated (db : Db) (shared : Int) : Db :=
  { db with assignments := db.assignments.map fun a =>
      if a.issue_or_pr == shared then { a with outdated := 1 } else a }

/-- One iteration of the upsert loop of `update_assignments`: insert
`(user, shared)` with `outdated = 0`, reporting `New`; on conflict clear
the flag (untracked), reporting nothing (`Unchanged`). -/
def upsertAssignment (db : Db) (shared : Int) (user : Int) : Db × ProcessStatus :=
  if db.assignments.any (fun a => a.user == user && a.issue_or_pr == shared) then
    ({ db with assignments := db.assignments.map fun a =>
        if a.user == user && a.issue_or_pr == shared then { a with outdated := 0 } else a },
     .Unchanged)
  else
    ({ db with assignments := db.assignments ++ [⟨user, shared, 0⟩] }, .New)

/-- The upsert loop of `update_assignments`, collecting the per-row
classifications it reports in order. -/
def upsertAssignments (db : Db) (shared : Int) :
    List Int → Db × List ProcessStatus
  | [] => (db, [])
  | u :: us =>
    let r := upsertAssignment db shared u
    let rest := upsertAssignments r.1 shared us
    (rest.1, r.2 :: rest.2)

/-- `update_assignments`, decomposed: mark, upsert, then re-query the
`Assignment` table for still-outdated rows of this shared row.  Returns
the new database, the reported per-row classifications, and the keys of
the rows handed back for deletion. -/
def update_assignments_core (db : Db) (shared : Int) (users : List Int) :
    Db × List ProcessStatus × List (Int × Int) :=
  let marked := markAssignmentsOutdated db shared
  let r := upsertAssignments marked shared users
  (r.1, r.2,
   ((r.1.assignments.filter fun a => a.issue_or_pr == shared && a.outdated == 1).map
     fun a => (a.user, a.issue_or_pr)))

/-- `update_assignments` with the status threading of the source (each
fresh insert calls `status.update(New)`). -/
def update_assignments (db : Db) (status : ProcessStatus) (shared : Int)
    (users : List Int) : Db × ProcessStatus × List (Int × Int) :=
  let r := update_assignments_core db shared users
  (r.1, r.2.1.foldl ProcessStatus.update status, r.2.2)

/-- Mark every `LabelLink` rooted at `shared` with `outdated = 1`. -/
def markLabelLinksOutdated (db : Db) (shared : Int) : Db :=
  { db with labelLinks := db.labelLinks.map fun a =>
      if a.issue_or_pr == shared then { a with outdated := 1 } else a }

/-- One iteration of the upsert loop of `update_label_assignments`:
insert `(shared, label)` with `outdated = 0` — the `status.update(New)`
call is commented out in the source, so a fresh link reports nothing —
and on conflict clear the flag (untracked). -/
def upsertLabelLink (db : Db) (shared : Int) (label : String) : Db :=
  if db.labelLinks.any (fun a => a.label == label && a.issue_or_pr == shared) then
    { db with labelLinks := db.labelLinks.map fun a =>
        if a.label == label && a.issue_or_pr == shared then { a with outdated := 0 } else a }
  else
    { db with labelLinks := db.labelLinks ++ [⟨shared, label, 0⟩] }

/-- The upsert loop of `update_label_assignments`. -/
def upsertLabelLinks (db : Db) (shared : Int) : List String → Db
  | [] => db
  | l :: ls => upsertLabelLinks (upsertLabelLink db shared l) shared ls

/-- `update_label_assignments`, decomposed: mark the `LabelLink` rows,
upsert the observed set, then — as the source does — re-query the
**`Assignment`** table (not the link table that was just marked) for
still-outdated rows, and hand those back for deletion. -/
def update_label_assignments_core (db : Db) (shared : Int) (labels : List String) :
    Db × List (Int × Int) :=
  let marked := markLabelLinksOutdated db shared
  let db2 := upsertLabelLinks marked shared labels
  (db2,
   ((db2.assignments.filter fun a => a.issue_or_pr == shared && a.outdated == 1).map
     fun a => (a.user, a.issue_or_pr)))

/-- `update_label_assignments` with the (ignored) status parameter of the
source: `_status` is never updated. -/
def update_label_assignments (db : Db) (status : ProcessStatus) (shared : Int)
    (labels : List String) : Db × ProcessStatus × List (Int × Int) :=
  let r := update_label_assignments_core db shared labels
  (r.1, status, r.2)

/-- `txn.delete(i)` on one `Assignment` row handle; both outdated-row
lists of `process_issue`/`process_pr` have type
`Vec<TableRow<Assignment>>`, so both delete loops remove rows from the
`Assignment` table.  A failed delete is logged and ignored. -/
def deleteAssignment (db : Db) (k : Int × Int) : Db :=
  { db with assignments := db.assignments.eraseP fun a =>
      a.user == k.1 && a.issue_or_pr == k.2 }

/-- The delete loop over a list of `Assignment` row handles. -/
def deleteAssignmentRows (db : Db) (ks : List (Int × Int)) : Db :=
  ks.foldl deleteAssignment db

/-- The `labels.into_iter().map(|label| ensure_label_exists(..))` loop:
threads the transaction and status, collects the row keys. -/
def ensure_labels (db : Db) (status : ProcessStatus) :
    List LabelObs → Db × ProcessStatus × List String
  | [] => (db, status, [])
  | l :: ls =>
    let r := ensure_label_exists db status l
    let rest := ensure_labels r.1 r.2.1 ls
    (rest.1, rest.2.1, r.2.2 :: rest.2.2)

/-- The `assignees.into_iter().map(|user| ensure_user_exists(..))` loop. -/
def ensure_users (db : Db) (status : ProcessStatus) :
    List AuthorObs → Db × ProcessStatus × List Int
  | [] => (db, status, [])
  | a :: as_ =>
    let r := ensure_user_exists db status a
    let rest := ensure_users r.1 r.2.1 as_
    (rest.1, rest.2.1, r.2.2 :: rest.2.2)

/-! ### Observations and the `process_*` entry points -/

/-- The fields of `octocrab::models::issues::Issue` that `process_issue`
reads.  `state_reason` is already cast to its `i64` discriminant (the
source maps the enum with `as i64`). -/
structure IssueObs where
  number : Int
  state : IssueState
  state_reason : Option Int
  title : String
  body : Option String
  user : AuthorObs
  labels : List LabelObs
  assignees : List AuthorObs
  author_association : Option AuthorAssociationObs
  locked : Bool
  active_lock_reason : Option String
  closed_at : Option Int
  closed_by : Option AuthorObs
  created_at : Int
  updated_at : Int
deriving DecidableEq, Repr

/-- The fields of `octocrab::models::pulls::PullRequest` that
`process_pr` reads.  `mergeable_state` is already cast to its `i64`
discriminant; `mergeableStateUnknown` stands for
`MergeableState::Unknown as i64`. -/
structure PullObs where
  number : Int
  state : Option IssueState
  locked : Bool
  maintainer_can_modify : Bool
  title : Option String
  user : Option AuthorObs
  body : Option String
  labels : Option (List LabelObs)
  active_lock_reason : Option String
  created_at : Option Int
  updated_at : Option Int
  closed_at : Option Int
  mergeable : Option Bool
  mergeable_state : Option Int
  merged_at : Option Int
  merged_by : Option AuthorObs
  merge_commit_sha : Option String
  assignee : Option AuthorObs
  assignees : Option (List AuthorObs)
  rebaseable : Option Bool
  head_sha : String
  base_sha : String
  author_association : Option AuthorAssociationObs
  draft : Option Bool
  additions : Option Int
  deletions : Option Int
  changed_files : Option Int
  commits : Option Int
deriving DecidableEq, Repr

/-- The discriminant of `MergeableState::Unknown`; its value is never
inspected by any claim. -/
def mergeableStateUnknown : Int := 6

/-- The fields of `octocrab::models::issues::Comment` that
`process_comment` reads. -/
structure CommentObs where
  id : Int
  body : Option String
  user : AuthorObs
  created_at : Int
  updated_at : Option Int
deriving DecidableEq, Repr

/-- The payload of a queued `Request::Comments`, as built by
`add_comments_updated_req` (`page = 0`, `url = None` there). -/
structure CommentsReq where
  repo : RepoRow
  issue_number : Int
  since_timestamp : Option Int
  page : Nat
  url : Option String
deriving DecidableEq, Repr

/-- `add_comments_updated_req` (`src/requests/add.rs`): `New` issues get
`since = None`, `Updated` issues forward the raw
`issue_updated_timestamp`, `Unchanged` issues enqueue nothing. -/
def add_comments_updated_req (issue_status : ProcessStatus) (repo : RepoRow)
    (issue_updated_timestamp : Option Int) (issue_number : Int) : Option CommentsReq :=
  match issue_status with
  | .New => some ⟨repo, issue_number, none, 0, none⟩
  | .Updated => some ⟨repo, issue_number, issue_updated_timestamp, 0, none⟩
  | .Unchanged => none

/-- Result of `process_issue`: the returned classification, the store
after the transaction, and the Comments request the follow-up
`add_comments_updated_req` call enqueues (if any). -/
structure IssueResult where
  status : ProcessStatus
  db : Db
  commentsReq : Option CommentsReq
deriving DecidableEq, Repr

/-- Result of `process_pr` / `process_comment`. -/
structure ProcessResult where
  status : ProcessStatus
  db : Db
deriving DecidableEq, Repr

/-- `process_issue` (`src/database/updates.rs`).  `now` models
`Utc::now().timestamp()`. -/
def process_issue (db : Db) (now : Int) (repo : RepoRow) (obs : IssueObs) : IssueResult :=
  let r1 := ensure_user_exists db .Unchanged obs.user
  let r2 := find_or_insert_repo r1.1 repo
  let closed_at := if obs.state = .Closed then some (obs.closed_at.getD now) else none
  let rcb : Db × ProcessStatus × Option Int :=
    match obs.closed_by with
    | none => (r2.1, r1.2.1, none)
    | some a =>
      let r := ensure_user_exists r2.1 r1.2.1 a
      (r.1, r.2.1, some r.2.2)
  let rsh := ensure_shared_exists rcb.1 rcb.2.1 r1.2.2 r2.2 obs.number
    (some obs.title) obs.body
    (if obs.locked then obs.active_lock_reason else none)
    obs.created_at obs.updated_at closed_at obs.state_reason rcb.2.2
    obs.author_association
  let ris := ensure_issue_exists rsh.1 rsh.2.1 rsh.2.2
  let rlb := ensure_labels ris.1 ris.2 obs.labels
  let rll := update_label_assignments rlb.1 rlb.2.1 rsh.2.2 rlb.2.2
  let rus := ensure_users rll.1 rll.2.1 obs.assignees
  let ras := update_assignments rus.1 rus.2.1 rsh.2.2 rus.2.2
  let db' := deleteAssignmentRows ras.1 ras.2.2
  let db'' := deleteAssignmentRows db' rll.2.2
  { status := ras.2.1
    db := db''
    commentsReq :=
      add_comments_updated_req ras.2.1 repo (some obs.updated_at) obs.number }

/-- `process_pr` (`src/database/updates.rs`).  Returns `Unchanged`
without touching the store when the observation has no author. -/
def process_pr (db : Db) (now : Int) (repo : RepoRow) (obs : PullObs) : ProcessResult :=
  match obs.user with
  | none => { status := .Unchanged, db := db }
  | some author =>
    let r1 := ensure_user_exists db .Unchanged author
    let r2 := find_or_insert_repo r1.1 repo
    let closed_at :=
      if obs.state = some .Closed then some (obs.closed_at.getD now) else none
    let rcb : Db × ProcessStatus × Option Int :=
      match obs.merged_by with
      | none => (r2.1, r1.2.1, none)
      | some a =>
        let r := ensure_user_exists r2.1 r1.2.1 a
        (r.1, r.2.1, some r.2.2)
    let rsh := ensure_shared_exists rcb.1 rcb.2.1 r1.2.2 r2.2 obs.number
      obs.title obs.body
      (if obs.locked then obs.active_lock_reason else none)
      ((obs.created_at).getD now)
      ((obs.updated_at.or obs.created_at).getD now)
      closed_at none rcb.2.2 obs.author_association
    let rpr := ensure_pr_exists rsh.1 rsh.2.1 rsh.2.2
      (obs.draft.getD false) obs.maintainer_can_modify
      (obs.additions.getD 0) (obs.deletions.getD 0) (obs.changed_files.getD 0)
      (obs.commits.getD 0) obs.merged_at obs.merge_commit_sha rcb.2.2
      obs.head_sha obs.base_sha (obs.mergeable.getD false)
      (obs.rebaseable.getD false) (obs.mergeable_state.getD mergeableStateUnknown)
    let rlb := ensure_labels rpr.1 rpr.2 (obs.labels.getD [])
    let rll := update_label_assignments rlb.1 rlb.2.1 rsh.2.2 rlb.2.2
    let rus := ensure_users rll.1 rll.2.1 (obs.assignees.getD obs.assignee.toList)
    let ras := update_assignments rus.1 rus.2.1 rsh.2.2 rus.2.2
    let db' := deleteAssignmentRows ras.1 ras.2.2
    let db'' := deleteAssignmentRows db' rll.2.2
    { status := ras.2.1, db := db'' }

/-- `process_comment` (`src/database/updates.rs`).  An unknown parent
shared row is logged and skipped, returning the initial `Unchanged`. -/
def process_comment (db : Db) (obs : CommentObs) (issue_number : Int) : ProcessResult :=
  match db.shared.find? (fun r => r.number == issue_number) with
  | none => { status := .Unchanged, db := db }
  | some sharedRow =>
    let r1 := ensure_user_exists db .Unchanged obs.user
    let r2 := ensure_comment_exists r1.1 r1.2.1 obs.id r1.2.2 sharedRow.number
      obs.body obs.created_at ((obs.updated_at.getD obs.created_at))
    { status := r2.2, db := r2.1 }

/-! ### Per-row classifications (for P2, the classification-min property) -/

/-- The label loop, status-free: the resulting store, the per-row
classifications reported, and the keys. -/
def ensure_labels_core (db : Db) : List LabelObs → Db × List ProcessStatus × List String
  | [] => (db, [], [])
  | l :: ls =>
    let r := ensure_label_core db l
    let rest := ensure_labels_core r.1 ls
    (rest.1, r.2.1 :: rest.2.1, r.2.2 :: rest.2.2)

/-- The assignee loop, status-free. -/
def ensure_users_core (db : Db) : List AuthorObs → Db × List ProcessStatus × List Int
  | [] => (db, [], [])
  | a :: as_ =>
    let r := ensure_user_core db a
    let rest := ensure_users_core r.1 as_
    (rest.1, r.2.1 :: rest.2.1, r.2.2 :: rest.2.2)

/-- The per-row classifications reported while `process_issue` handles an
observation, in call order: the author row, the optional closed-by user
row, the shared row, the issue row, one entry per observed label row, one
entry per observed assignee user row, and one entry per assignment link
row.  Label-link rows report nothing (their status update is commented
out in the source). -/
def perRow_issue (db : Db) (now : Int) (repo : RepoRow) (obs : IssueObs) :
    List ProcessStatus :=
  let r1 := ensure_user_core db obs.user
  let r2 := find_or_insert_repo r1.1 repo
  let closed_at := if obs.state = .Closed then some (obs.closed_at.getD now) else none
  let rcb : Db × List ProcessStatus × Option Int :=
    match obs.closed_by with
    | none => (r2.1, [], none)
    | some a =>
      let r := ensure_user_core r2.1 a
      (r.1, [r.2.1], some r.2.2)
  let rsh := ensure_shared_core rcb.1 r1.2.2 r2.2 obs.number
    (some obs.title) obs.body
    (if obs.locked then obs.active_lock_reason else none)
    obs.created_at obs.updated_at closed_at obs.state_reason rcb.2.2
    obs.author_association
  let ris := ensure_issue_core rsh.1 rsh.2.2
  let rlb := ensure_labels_core ris.1 obs.labels
  let rll := update_label_assignments_core rlb.1 rsh.2.2 rlb.2.2
  let rus := ensure_users_core rll.1 obs.assignees
  let ras := update_assignments_core rus.1 rsh.2.2 rus.2.2
  [r1.2.1] ++ rcb.2.1 ++ [rsh.2.1, ris.2] ++ rlb.2.1 ++ rus.2.1 ++ ras.2.1

/-- The per-row classifications reported by `process_pr`, in call order;
empty when the observation has no author (the source returns early). -/
def perRow_pr (db : Db) (now : Int) (repo : RepoRow) (obs : PullObs) :
    List ProcessStatus :=
  match obs.user with
  | none => []
  | some author =>
    let r1 := ensure_user_core db author
    let r2 := find_or_insert_repo r1.1 repo
    let closed_at :=
      if obs.state = some .Closed then some (obs.closed_at.getD now) else none
    let rcb : Db × List ProcessStatus × Option Int :=
      match obs.merged_by with
      | none => (r2.1, [], none)
      | some a =>
        let r := ensure_user_core r2.1 a
        (r.1, [r.2.1], some r.2.2)
    let rsh := ensure_shared_core rcb.1 r1.2.2 r2.2 obs.number
      obs.title obs.body
      (if obs.locked then obs.active_lock_reason else none)
      ((obs.created_at).getD now)
      ((obs.updated_at.or obs.created_at).getD now)
      closed_at none rcb.2.2 obs.author_association
    let rpr := ensure_pr_core rsh.1 rsh.2.2
      (obs.draft.getD false) obs.maintainer_can_modify
      (obs.additions.getD 0) (obs.deletions.getD 0) (obs.changed_files.getD 0)
      (obs.commits.getD 0) obs.merged_at obs.merge_commit_sha rcb.2.2
      obs.head_sha obs.base_sha (obs.mergeable.getD false)
      (obs.rebaseable.getD false) (obs.mergeable_state.getD mergeableStateUnknown)
    let rlb := ensure_labels_core rpr.1 (obs.labels.getD [])
    let rll := update_label_assignments_core rlb.1 rsh.2.2 rlb.2.2
    let rus := ensure_users_core rll.1 (obs.assignees.getD obs.assignee.toList)
    let ras := update_assignments_core rus.1 rsh.2.2 rus.2.2
    [r1.2.1] ++ rcb.2.1 ++ [rsh.2.1, rpr.2] ++ rlb.2.1 ++ rus.2.1 ++ ras.2.1

/-- The per-row classifications reported by `process_comment`; empty when
the parent shared row is unknown (the item is skipped). -/
def perRow_comment (db : Db) (obs : CommentObs) (issue_number : Int) :
    List ProcessStatus :=
  match db.shared.find? (fun r => r.number == issue_number) with
  | none => []
  | some sharedRow =>
    let r1 := ensure_user_core db obs.user
    let r2 := ensure_comment_core r1.1 obs.id r1.2.2 sharedRow.number
      obs.body obs.created_at ((obs.updated_at.getD obs.created_at))
    [r1.2.1, r2.2]

/-- `ProcessStatus::update` replaces the status exactly when the other
operand is smaller in discriminant order, i.e. it is the binary minimum
under New < Updated < Unchanged. -/
theorem statusUpdate_eq_statusMin : ProcessStatus.update = statusMin := by
  funext a b
  cases a <;> cases b <;> rfl

/-- The threaded label loop is the status-free loop plus a fold of the
reported classifications over the incoming status. -/
theorem ensure_labels_eq (db : Db) (s : ProcessStatus) (ls : List LabelObs) :
    ensure_labels db s ls =
      ((ensure_labels_core db ls).1,
       (ensure_labels_core db ls).2.1.foldl ProcessStatus.update s,
       (ensure_labels_core db ls).2.2) := by
  induction ls generalizing db s with
  | nil => rfl
  | cons l ls ih =>
    simp only [ensure_labels, ensure_labels_core, ensure_label_exists, ih,
      List.foldl_cons]

/-- The threaded assignee loop is the status-free loop plus a fold. -/
theorem ensure_users_eq (db : Db) (s : ProcessStatus) (as_ : List AuthorObs) :
    ensure_users db s as_ =
      ((ensure_users_core db as_).1,
       (ensure_users_core db as_).2.1.foldl ProcessStatus.update s,
       (ensure_users_core db as_).2.2) := by
  induction as_ generalizing db s with
  | nil => rfl
  | cons a as_ ih =>
    simp only [ensure_users, ensure_users_core, ensure_user_exists, ih,
      List.foldl_cons]

/-- C4: for every compound observation, the classification returned by
`process_pr`, `process_issue`, or `process_comment` equals the minimum of
the per-row classifications reported while handling it, under the order
New < Updated < Unchanged (`statusMin` is that binary minimum: its
discriminant is the `Nat.min` of the operand discriminants, and the empty
minimum is `Unchanged`, the top element). -/
theorem classification_is_min_of_per_row :
    (∀ (db : Db) (now : Int) (repo : RepoRow) (obs : IssueObs),
        (process_issue db now repo obs).status =
          (perRow_issue db now repo obs).foldl statusMin .Unchanged)
    ∧ (∀ (db : Db) (now : Int) (repo : RepoRow) (obs : PullObs),
        (process_pr db now repo obs).status =
          (perRow_pr db now repo obs).foldl statusMin .Unchanged)
    ∧ (∀ (db : Db) (obs : CommentObs) (issue_number : Int),
        (process_comment db obs issue_number).status =
          (perRow_comment db obs issue_number).foldl statusMin .Unchanged)
    ∧ (∀ a b : ProcessStatus, (statusMin a b).toNat = Nat.min a.toNat b.toNat) := by
  refine ⟨fun db now repo obs => ?_, fun db now repo obs => ?_,
    fun db obs issue_number => ?_, fun a b => by cases a <;> cases b <;> rfl⟩
  · rw [← statusUpdate_eq_statusMin]
    simp only [process_issue, perRow_issue, ensure_user_exists, ensure_shared_exists,
      ensure_issue_exists, update_label_assignments, update_assignments,
      ensure_labels_eq, ensure_users_eq, List.foldl_append, List.foldl_cons,
      List.foldl_nil]
    cases obs.closed_by <;>
      simp only [ensure_user_exists, List.foldl_cons, List.foldl_nil]
  · rw [← statusUpdate_eq_statusMin]
    simp only [process_pr, perRow_pr]
    cases obs.user with
    | none => rfl
    | some author =>
      simp only [ensure_user_exists, ensure_shared_exists,
        ensure_pr_exists, update_label_assignments, update_assignments,
        ensure_labels_eq, ensure_users_eq, List.foldl_append, List.foldl_cons,
        List.foldl_nil]
      cases obs.merged_by <;>
        simp only [ensure_user_exists, List.foldl_cons, List.foldl_nil]
  · rw [← statusUpdate_eq_statusMin]
    cases h : db.shared.find? (fun r => r.number == issue_number) with
    | none => simp only [process_comment, perRow_comment, h, List.foldl_nil]
    | some sharedRow =>
      simp only [process_comment, perRow_comment, h, ensure_user_exists,
        ensure_comment_exists, List.foldl_cons, List.foldl_nil]

/-- After upserting label `l`, some `LabelLink (shared, l)` row is
present with a cleared outdated flag. -/
theorem upsertLabelLink_establishes (db : Db) (shared : Int) (l : String) :
    ∃ row ∈ (upsertLabelLink db shared l).labelLinks,
      row.issue_or_pr = shared ∧ row.label = l ∧ row.outdated = 0 := by
  unfold upsertLabelLink
  by_cases h : db.labelLinks.any (fun a => a.label == l && a.issue_or_pr == shared)
  · have hb := h
    rw [List.any_eq_true] at h
    obtain ⟨row, hrow, hp⟩ := h
    simp only [Bool.and_eq_true, beq_iff_eq] at hp
    simp only [hb, if_true, List.mem_map]
    exact ⟨{ row with outdated := 0 }, ⟨row, hrow, by simp [hp.1, hp.2]⟩,
      hp.2, hp.1, rfl⟩
  · simp only [Bool.not_eq_true] at h
    simp only [h, Bool.false_eq_true, if_false]
    exact ⟨⟨shared, l, 0⟩, by simp, rfl, rfl, rfl⟩

/-- Upserting any label preserves the presence of a cleared
`(shared, l)` link row. -/
theorem upsertLabelLink_preserves (db : Db) (shared : Int) (l' l : String)
    (h : ∃ row ∈ db.labelLinks,
      row.issue_or_pr = shared ∧ row.label = l ∧ row.outdated = 0) :
    ∃ row ∈ (upsertLabelLink db shared l').labelLinks,
      row.issue_or_pr = shared ∧ row.label = l ∧ row.outdated = 0 := by
  obtain ⟨row, hrow, h1, h2, h3⟩ := h
  unfold upsertLabelLink
  by_cases hc : db.labelLinks.any (fun a => a.label == l' && a.issue_or_pr == shared)
  · simp only [hc, if_true]
    by_cases hm : row.label == l' && row.issue_or_pr == shared
    · exact ⟨{ row with outdated := 0 }, by
        refine List.mem_map.2 ⟨row, hrow, ?_⟩
        simp [hm], h1, h2, rfl⟩
    · exact ⟨row, by
        refine List.mem_map.2 ⟨row, hrow, ?_⟩
        simp [hm], h1, h2, h3⟩
  · simp only [hc, if_false]
    exact ⟨row, List.mem_append_left _ hrow, h1, h2, h3⟩

/-- The upsert loop preserves the presence of a cleared `(shared, l)`
link row. -/
theorem upsertLabelLinks_preserves (shared : Int) (l : String) :
    ∀ (ls : List String) (db : Db),
    (∃ row ∈ db.labelLinks,
      row.issue_or_pr = shared ∧ row.label = l ∧ row.outdated = 0) →
    ∃ row ∈ (upsertLabelLinks db shared ls).labelLinks,
      row.issue_or_pr = shared ∧ row.label = l ∧ row.outdated = 0 := by
  intro ls
  induction ls with
  | nil => exact fun db h => h
  | cons l' ls ih =>
    intro db h
    exact ih (upsertLabelLink db shared l') (upsertLabelLink_preserves db shared l' l h)

/-- After the upsert loop runs over an observed label list, every label
of the list has a cleared `(shared, l)` link row. -/
theorem upsertLabelLinks_mem (shared : Int) (l : String) :
    ∀ (ls : List String) (db : Db), l ∈ ls →
    ∃ row ∈ (upsertLabelLinks db shared ls).labelLinks,
      row.issue_or_pr = shared ∧ row.label = l ∧ row.outdated = 0 := by
  intro ls
  induction ls with
  | nil => intro db h; cases h
  | cons l' ls ih =>
    intro db h
    rcases List.mem_cons.1 h with rfl | hmem
    · exact upsertLabelLinks_preserves _ _ ls _ (upsertLabelLink_establishes db _ l)
    · exact ih (upsertLabelLink db shared l') hmem

/-- C10: the only inserts that report `New` to the aggregated
classification are those of Shared, Issue, PullRequest, Comment and
Assignment rows; a previously-unseen User or Label row reports `Updated`
(not `New`), and a fresh LabelLink row is inserted with a cleared
outdated flag while leaving the classification untouched. -/
theorem insert_classification_policy :
    (∀ (db : Db) (s : ProcessStatus) (a : AuthorObs),
        (∀ u ∈ db.users, u.github_id ≠ a.id) →
        (ensure_user_exists db s a).2.1 = s.update .Updated)
    ∧ (∀ (db : Db) (s : ProcessStatus) (l : LabelObs),
        (∀ r ∈ db.labels, r.name ≠ l.name) →
        (ensure_label_exists db s l).2.1 = s.update .Updated)
    ∧ (∀ (db : Db) (s : ProcessStatus) (user : Int) (repo : RepoRow) (number : Int)
        (title body lock_reason : Option String) (created updated : Int)
        (closed_at : Option Int) (state_reason : Option Int) (closed_by : Option Int)
        (assoc : Option AuthorAssociationObs),
        (∀ r ∈ db.shared, r.number ≠ number) →
        (ensure_shared_exists db s user repo number title body lock_reason
          created updated closed_at state_reason closed_by assoc).2.1 = s.update .New)
    ∧ (∀ (db : Db) (s : ProcessStatus) (sh : Int),
        (∀ r ∈ db.issues, r.shared ≠ sh) →
        (ensure_issue_exists db s sh).2 = s.update .New)
    ∧ (∀ (db : Db) (s : ProcessStatus) (sh : Int) (draft mcm : Bool)
        (na nd ncf nc : Int) (mat : Option Int) (mcs : Option String)
        (mb : Option Int) (hs bs : String) (m r : Bool) (ms : Int),
        (∀ row ∈ db.prs, row.shared ≠ sh) →
        (ensure_pr_exists db s sh draft mcm na nd ncf nc mat mcs mb hs bs m r ms).2 =
          s.update .New)
    ∧ (∀ (db : Db) (s : ProcessStatus) (cid author iop : Int)
        (text : Option String) (ct ut : Int),
        (∀ r ∈ db.comments, r.comment_id ≠ cid) →
        (ensure_comment_exists db s cid author iop text ct ut).2 = s.update .New)
    ∧ (∀ (db : Db) (s : ProcessStatus) (sh u : Int),
        (∀ a ∈ db.assignments, ¬(a.user = u ∧ a.issue_or_pr = sh)) →
        (update_assignments db s sh [u]).2.1 = s.update .New)
    ∧ (∀ (db : Db) (s : ProcessStatus) (sh : Int) (ls : List String) (l : String),
        (∀ row ∈ db.labelLinks, ¬(row.label = l ∧ row.issue_or_pr = sh)) →
        l ∈ ls →
        (update_label_assignments db s sh ls).2.1 = s
        ∧ ∃ row ∈ (update_label_assignments db s sh ls).1.labelLinks,
            row.issue_or_pr = sh ∧ row.label = l ∧ row.outdated = 0) := by
  refine ⟨?_, ?_, ?_, ?_, ?_, ?_, ?_, ?_⟩
  · intro db s a h
    have hb : db.users.any (fun u => u.github_id == a.id) = false := by
      rw [List.any_eq_false]
      intro u hu
      simpa using h u hu
    simp [ensure_user_exists, ensure_user_core, hb]
  · intro db s l h
    have hb : db.labels.any (fun r => r.name == l.name) = false := by
      rw [List.any_eq_false]
      intro r hr
      simpa using h r hr
    simp [ensure_label_exists, ensure_label_core, hb]
  · intro db s user repo number title body lock_reason created updated closed_at
      state_reason closed_by assoc h
    have hb : db.shared.find? (fun r => r.number == number) = none := by
      rw [List.find?_eq_none]
      intro r hr
      simpa using h r hr
    simp [ensure_shared_exists, ensure_shared_core, hb]
  · intro db s sh h
    have hb : db.issues.any (fun r => r.shared == sh) = false := by
      rw [List.any_eq_false]
      intro r hr
      simpa using h r hr
    simp [ensure_issue_exists, ensure_issue_core, hb]
  · intro db s sh draft mcm na nd ncf nc mat mcs mb hs bs m r ms h
    have hb : db.prs.any (fun row => row.shared == sh) = false := by
      rw [List.any_eq_false]
      intro row hrow
      simpa using h row hrow
    simp [ensure_pr_exists, ensure_pr_core, hb]
  · intro db s cid author iop text ct ut h
    have hb : db.comments.find? (fun r => r.comment_id == cid) = none := by
      rw [List.find?_eq_none]
      intro r hr
      simpa using h r hr
    simp [ensure_comment_exists, ensure_comment_core, hb]
  · intro db s sh u h
    have hb : ((markAssignmentsOutdated db sh).assignments.any
        (fun a => a.user == u && a.issue_or_pr == sh)) = false := by
      rw [List.any_eq_false]
      intro a ha
      simp only [markAssignmentsOutdated, List.mem_map] at ha
      obtain ⟨b, hbmem, rfl⟩ := ha
      have hnb := h b hbmem
      cases hif : (b.issue_or_pr == sh) with
      | false => simp [hif]
      | true =>
        rw [beq_iff_eq] at hif
        simp only [hif, beq_self_eq_true, if_true, Bool.and_eq_true, beq_iff_eq]
        exact fun hand => hnb ⟨hand.1, hif⟩
    simp [update_assignments, update_assignments_core, upsertAssignments,
      upsertAssignment, hb]
  · intro db s sh ls l _ hmem
    refine ⟨rfl, ?_⟩
    exact upsertLabelLinks_mem sh l ls (markLabelLinksOutdated db sh) hmem

/-- Witness for C10 at concrete fresh inserts into the empty store. -/
theorem insert_classification_policy_witness :
    (ensure_user_exists Db.empty .Unchanged ⟨7, "alice", none⟩).2.1 =
      ProcessStatus.Unchanged.update .Updated
    ∧ (ensure_label_exists Db.empty .Unchanged ⟨"bug", none, "red"⟩).2.1 =
      ProcessStatus.Unchanged.update .Updated
    ∧ (ensure_shared_exists Db.empty .Unchanged 7 ⟨"acme", "widget"⟩ 1 none none none
        0 0 none none none none).2.1 = ProcessStatus.Unchanged.update .New
    ∧ (ensure_issue_exists Db.empty .Unchanged 1).2 =
      ProcessStatus.Unchanged.update .New
    ∧ (ensure_pr_exists Db.empty .Unchanged 1 false false 0 0 0 0 none none none
        "h" "b" false false 6).2 = ProcessStatus.Unchanged.update .New
    ∧ (ensure_comment_exists Db.empty .Unchanged 1 7 1 none 0 0).2 =
      ProcessStatus.Unchanged.update .New
    ∧ (update_assignments Db.empty .Unchanged 1 [7]).2.1 =
      ProcessStatus.Unchanged.update .New
    ∧ ((update_label_assignments Db.empty .Unchanged 1 ["bug"]).2.1 = .Unchanged
        ∧ ∃ row ∈ (update_label_assignments Db.empty .Unchanged 1 ["bug"]).1.labelLinks,
            row.issue_or_pr = 1 ∧ row.label = "bug" ∧ row.outdated = 0) :=
  ⟨insert_classification_policy.1 _ _ _ (by intro u hu; cases hu),
   insert_classification_policy.2.1 _ _ _ (by intro r hr; cases hr),
   insert_classification_policy.2.2.1 _ _ _ _ _ _ _ _ _ _ _ _ _ _
     (by intro r hr; cases hr),
   insert_classification_policy.2.2.2.1 _ _ _ (by intro r hr; cases hr),
   insert_classification_policy.2.2.2.2.1 _ _ _ _ _ _ _ _ _ _ _ _ _ _ _ _ _
     (by intro row hrow; cases hrow),
   insert_classification_policy.2.2.2.2.2.1 _ _ _ _ _ _ _ _
     (by intro r hr; cases hr),
   insert_classification_policy.2.2.2.2.2.2.1 _ _ _ _ (by intro a ha; cases ha),
   insert_classification_policy.2.2.2.2.2.2.2 _ _ _ _ _
     (by intro row hrow; cases hrow) (by simp)⟩

/-! ### The label / assignee / reconciliation phases leave the `shared`
and `prs` tables untouched -/

theorem ensure_labels_core_keeps (ls : List LabelObs) :
    ∀ db : Db, (ensure_labels_core db ls).1.shared = db.shared
      ∧ (ensure_labels_core db ls).1.prs = db.prs := by
  induction ls with
  | nil => exact fun db => ⟨rfl, rfl⟩
  | cons l ls ih =>
    intro db
    have h := ih (ensure_label_core db l).1
    have hl : (ensure_label_core db l).1.shared = db.shared
        ∧ (ensure_label_core db l).1.prs = db.prs := by
      unfold ensure_label_core
      split <;> exact ⟨rfl, rfl⟩
    simp only [ensure_labels_core]
    exact ⟨h.1.trans hl.1, h.2.trans hl.2⟩

theorem upsertLabelLinks_keeps (ls : List String) (shared : Int) :
    ∀ db : Db, (upsertLabelLinks db shared ls).shared = db.shared
      ∧ (upsertLabelLinks db shared ls).prs = db.prs := by
  induction ls with
  | nil => exact fun db => ⟨rfl, rfl⟩
  | cons l ls ih =>
    intro db
    have h := ih (upsertLabelLink db shared l)
    have hl : (upsertLabelLink db shared l).shared = db.shared
        ∧ (upsertLabelLink db shared l).prs = db.prs := by
      unfold upsertLabelLink
      split <;> exact ⟨rfl, rfl⟩
    simp only [upsertLabelLinks]
    exact ⟨h.1.trans hl.1, h.2.trans hl.2⟩

theorem update_label_assignments_core_keeps (db : Db) (shared : Int)
    (ls : List String) :
    (update_label_assignments_core db shared ls).1.shared = db.shared
      ∧ (update_label_assignments_core db shared ls).1.prs = db.prs := by
  unfold update_label_assignments_core markLabelLinksOutdated
  exact upsertLabelLinks_keeps ls shared _

theorem ensure_users_core_keeps (as_ : List AuthorObs) :
    ∀ db : Db, (ensure_users_core db as_).1.shared = db.shared
      ∧ (ensure_users_core db as_).1.prs = db.prs := by
  induction as_ with
  | nil => exact fun db => ⟨rfl, rfl⟩
  | cons a as_ ih =>
    intro db
    have h := ih (ensure_user_core db a).1
    have hl : (ensure_user_core db a).1.shared = db.shared
        ∧ (ensure_user_core db a).1.prs = db.prs := by
      unfold ensure_user_core
      split <;> exact ⟨rfl, rfl⟩
    simp only [ensure_users_core]
    exact ⟨h.1.trans hl.1, h.2.trans hl.2⟩

theorem upsertAssignments_keeps (us : List Int) (shared : Int) :
    ∀ db : Db, (upsertAssignments db shared us).1.shared = db.shared
      ∧ (upsertAssignments db shared us).1.prs = db.prs := by
  induction us with
  | nil => exact fun db => ⟨rfl, rfl⟩
  | cons u us ih =>
    intro db
    have h := ih (upsertAssignment db shared u).1
    have hl : (upsertAssignment db shared u).1.shared = db.shared
        ∧ (upsertAssignment db shared u).1.prs = db.prs := by
      unfold upsertAssignment
      split <;> exact ⟨rfl, rfl⟩
    simp only [upsertAssignments]
    exact ⟨h.1.trans hl.1, h.2.trans hl.2⟩

theorem update_assignments_core_keeps (db : Db) (shared : Int) (us : List Int) :
    (update_assignments_core db shared us).1.shared = db.shared
      ∧ (update_assignments_core db shared us).1.prs = db.prs := by
  unfold update_assignments_core markAssignmentsOutdated
  exact upsertAssignments_keeps us shared _

theorem deleteAssignmentRows_keeps (ks : List (Int × Int)) :
    ∀ db : Db, (deleteAssignmentRows db ks).shared = db.shared
      ∧ (deleteAssignmentRows db ks).prs = db.prs := by
  induction ks with
  | nil => exact fun db => ⟨rfl, rfl⟩
  | cons k ks ih =>
    intro db
    have h := ih (deleteAssignment db k)
    exact ⟨h.1, h.2⟩

theorem ensure_issue_core_keeps (db : Db) (sh : Int) :
    (ensure_issue_core db sh).1.shared = db.shared
      ∧ (ensure_issue_core db sh).1.prs = db.prs := by
  unfold ensure_issue_core
  split <;> exact ⟨rfl, rfl⟩

theorem ensure_pr_core_keeps_shared (db : Db) (sh : Int) (draft mcm : Bool)
    (na nd ncf nc : Int) (mat : Option Int) (mcs : Option String) (mb : Option Int)
    (hs bs : String) (m rb : Bool) (ms : Int) :
    (ensure_pr_core db sh draft mcm na nd ncf nc mat mcs mb hs bs m rb ms).1.shared =
      db.shared := by
  unfold ensure_pr_core
  split <;> rfl

/-- `ensure_shared_exists` always hands back `number` as the row key. -/
theorem ensure_shared_core_key (db : Db) (user : Int) (repo : RepoRow) (number : Int)
    (title body lock_reason : Option String) (created updated : Int)
    (closed_at : Option Int) (state_reason : Option Int) (closed_by : Option Int)
    (assoc : Option AuthorAssociationObs) :
    (ensure_shared_core db user repo number title body lock_reason created updated
      closed_at state_reason closed_by assoc).2.2 = number := by
  unfold ensure_shared_core
  split <;> rfl

/-- After `ensure_shared_exists`, every shared row carrying the observed
number stores exactly the `lock_reason` argument (the source writes it
through unconditionally on both the insert and the conflict path). -/
theorem ensure_shared_core_lock_reason (db : Db) (user : Int) (repo : RepoRow)
    (number : Int) (title body lock_reason : Option String) (created updated : Int)
    (closed_at : Option Int) (state_reason : Option Int) (closed_by : Option Int)
    (assoc : Option AuthorAssociationObs) :
    ∀ r ∈ (ensure_shared_core db user repo number title body lock_reason created
      updated closed_at state_reason closed_by assoc).1.shared,
      r.number = number → r.lock_reason = lock_reason := by
  intro r hr hn
  unfold ensure_shared_core at hr
  cases hf : db.shared.find? (fun x => x.number == number) with
  | some old =>
    rw [hf] at hr
    simp only [List.mem_map] at hr
    obtain ⟨x, hx, rfl⟩ := hr
    by_cases hc : (x.number == number) = true
    · simp [hc]
    · rw [Bool.not_eq_true] at hc
      simp only [hc, Bool.false_eq_true, if_false] at hn
      rw [beq_eq_false_iff_ne] at hc
      exact absurd hn hc
  | none =>
    rw [hf] at hr
    simp only [List.mem_append, List.mem_singleton] at hr
    rcases hr with hx | rfl
    · have := List.find?_eq_none.1 hf r hx
      simp [hn] at this
    · rfl

/-- After `ensure_pr_exists`, every PR row carrying the observed shared
key stores exactly the observed merged fields and `some head_sha` /
`some base_sha` (the source overwrites all of them unconditionally on
both paths). -/
theorem ensure_pr_core_merged (db : Db) (sh : Int) (draft mcm : Bool)
    (na nd ncf nc : Int) (mat : Option Int) (mcs : Option String) (mb : Option Int)
    (hs bs : String) (m rb : Bool) (ms : Int) :
    ∀ r ∈ (ensure_pr_core db sh draft mcm na nd ncf nc mat mcs mb hs bs m rb ms).1.prs,
      r.shared = sh →
      r.merged_at_timestamp = mat ∧ r.merge_commit_sha = mcs ∧ r.merged_by = mb
        ∧ r.head_sha = some hs ∧ r.base_sha = some bs := by
  intro r hr hn
  unfold ensure_pr_core at hr
  by_cases hb : (db.prs.any (fun x => x.shared == sh)) = true
  · simp only [hb, if_true, List.mem_map] at hr
    obtain ⟨x, hx, rfl⟩ := hr
    by_cases hc : (x.shared == sh) = true
    · simp [hc]
    · rw [Bool.not_eq_true] at hc
      simp only [hc, Bool.false_eq_true, if_false] at hn
      rw [beq_eq_false_iff_ne] at hc
      exact absurd hn hc
  · rw [Bool.not_eq_true] at hb
    simp only [hb, Bool.false_eq_true, if_false, List.mem_append,
      List.mem_singleton] at hr
    rcases hr with hx | rfl
    · rw [List.any_eq_false] at hb
      have := hb r hx
      simp [hn] at this
    · exact ⟨rfl, rfl, rfl, rfl, rfl⟩

set_option maxHeartbeats 1600000 in
/-- C9 (amended): the stored `lock_reason` of an observed issue or pull
request is the observed `active_lock_reason` when the item is locked and
null otherwise — in particular it is null, not the empty string, when
the item is locked without an explicit upstream reason. -/
theorem lock_reason_stored :
    (∀ (db : Db) (now : Int) (repo : RepoRow) (obs : IssueObs),
        ∀ r ∈ (process_issue db now repo obs).db.shared, r.number = obs.number →
          r.lock_reason = if obs.locked then obs.active_lock_reason else none)
    ∧ (∀ (db : Db) (now : Int) (repo : RepoRow) (obs : PullObs) (a : AuthorObs),
        obs.user = some a →
        ∀ r ∈ (process_pr db now repo obs).db.shared, r.number = obs.number →
          r.lock_reason = if obs.locked then obs.active_lock_reason else none) := by
  constructor
  · intro db now repo obs r hr hn
    simp only [process_issue, ensure_user_exists, ensure_shared_exists,
      ensure_issue_exists, update_label_assignments, update_assignments,
      ensure_labels_eq, ensure_users_eq] at hr
    rw [(deleteAssignmentRows_keeps _ _).1, (deleteAssignmentRows_keeps _ _).1,
      (update_assignments_core_keeps _ _ _).1, (ensure_users_core_keeps _ _).1,
      (update_label_assignments_core_keeps _ _ _).1,
      (ensure_labels_core_keeps _ _).1, (ensure_issue_core_keeps _ _).1] at hr
    exact ensure_shared_core_lock_reason _ _ _ _ _ _ _ _ _ _ _ _ _ r hr hn
  · intro db now repo obs a ha r hr hn
    simp only [process_pr, ha, ensure_user_exists, ensure_shared_exists,
      ensure_pr_exists, ensure_issue_exists, update_label_assignments,
      update_assignments, ensure_labels_eq, ensure_users_eq] at hr
    rw [(deleteAssignmentRows_keeps _ _).1, (deleteAssignmentRows_keeps _ _).1,
      (update_assignments_core_keeps _ _ _).1, (ensure_users_core_keeps _ _).1,
      (update_label_assignments_core_keeps _ _ _).1,
      (ensure_labels_core_keeps _ _).1, ensure_pr_core_keeps_shared] at hr
    exact ensure_shared_core_lock_reason _ _ _ _ _ _ _ _ _ _ _ _ _ r hr hn

/-- Witness input for the lock-reason policy: a locked issue with an
explicit upstream reason. -/
def c9wObs : IssueObs :=
  ⟨1, .Open, none, "t", none, ⟨7, "alice", none⟩, [], [], none, true,
   some "spam", none, none, 10, 20⟩

/-- Witness for C9's amended statement at a concrete locked issue. -/
theorem lock_reason_stored_witness :
    (⟨1, "t", "", 7, some "spam", 10, 20, none, ⟨"acme", "widget"⟩, none, none,
        "None"⟩ : SharedRow) ∈
      (process_issue Db.empty 99 ⟨"acme", "widget"⟩ c9wObs).db.shared
    ∧ (⟨1, "t", "", 7, some "spam", 10, 20, none, ⟨"acme", "widget"⟩, none, none,
        "None"⟩ : SharedRow).lock_reason =
      (if c9wObs.locked then c9wObs.active_lock_reason else none) :=
  ⟨by decide,
   lock_reason_stored.1 Db.empty 99 ⟨"acme", "widget"⟩ c9wObs _ (by decide) (by decide)⟩

/-- Counterexample input for C9 as stated: a locked issue with no
explicit upstream reason. -/
def c9xObs : IssueObs :=
  ⟨1, .Open, none, "t", none, ⟨7, "alice", none⟩, [], [], none, true, none,
   none, none, 10, 20⟩

/-- C9 as stated is false: an issue locked without an explicit upstream
reason is stored with a null `lock_reason`, not the empty string. -/
theorem lock_reason_empty_string_counterexample :
    ((process_issue Db.empty 99 ⟨"acme", "widget"⟩ c9xObs).db.shared.map
      (fun r => r.lock_reason)) = [none]
    ∧ (none : Option String) ≠ some "" := by
  decide

/-- `ensure_user_exists` always hands back the author's id as row key. -/
theorem ensure_user_core_key (db : Db) (a : AuthorObs) :
    (ensure_user_core db a).2.2 = a.id := by
  unfold ensure_user_core
  split <;> rfl

set_option maxHeartbeats 1600000 in
/-- C8 (amended): on every observation of an existing pull request,
`ensure_pr_exists` overwrites `merged_at_timestamp`, `merge_commit_sha`
and `merged_by` with the observed optional values — clearing them when
the observation lacks them — while `head_sha` and `base_sha`, which are
always observed, are overwritten with `some` and hence can never become
null. -/
theorem merged_fields_overwritten :
    ∀ (db : Db) (now : Int) (repo : RepoRow) (obs : PullObs) (a : AuthorObs),
      obs.user = some a →
      ∀ r ∈ (process_pr db now repo obs).db.prs, r.shared = obs.number →
        r.merged_at_timestamp = obs.merged_at
        ∧ r.merge_commit_sha = obs.merge_commit_sha
        ∧ r.merged_by = obs.merged_by.map (fun x => x.id)
        ∧ r.head_sha = some obs.head_sha
        ∧ r.base_sha = some obs.base_sha := by
  intro db now repo obs a ha r hr hn
  simp only [process_pr, ha, ensure_user_exists, ensure_shared_exists,
    ensure_pr_exists, update_label_assignments, update_assignments,
    ensure_labels_eq, ensure_users_eq] at hr
  cases hmb : obs.merged_by with
  | none =>
    simp only [hmb] at hr
    rw [(deleteAssignmentRows_keeps _ _).2, (deleteAssignmentRows_keeps _ _).2,
      (update_assignments_core_keeps _ _ _).2, (ensure_users_core_keeps _ _).2,
      (update_label_assignments_core_keeps _ _ _).2,
      (ensure_labels_core_keeps _ _).2, ensure_shared_core_key] at hr
    simpa using ensure_pr_core_merged _ _ _ _ _ _ _ _ _ _ _ _ _ _ _ _ r hr hn
  | some mba =>
    simp only [hmb] at hr
    rw [(deleteAssignmentRows_keeps _ _).2, (deleteAssignmentRows_keeps _ _).2,
      (update_assignments_core_keeps _ _ _).2, (ensure_users_core_keeps _ _).2,
      (update_label_assignments_core_keeps _ _ _).2,
      (ensure_labels_core_keeps _ _).2, ensure_shared_core_key] at hr
    simpa [ensure_user_core_key] using
      ensure_pr_core_merged _ _ _ _ _ _ _ _ _ _ _ _ _ _ _ _ r hr hn

/-- A pull-request observation carrying all merged fields. -/
def c8Obs1 : PullObs :=
  { number := 1
    state := some .Open
    locked := false
    maintainer_can_modify := false
    title := some "t"
    user := some ⟨7, "alice", none⟩
    body := none
    labels := none
    active_lock_reason := none
    created_at := some 10
    updated_at := some 20
    closed_at := none
    mergeable := none
    mergeable_state := none
    merged_at := some 5
    merged_by := some ⟨8, "bob", none⟩
    merge_commit_sha := some "abc"
    assignee := none
    assignees := none
    rebaseable := none
    head_sha := "h1"
    base_sha := "b1"
    author_association := none
    draft := none
    additions := none
    deletions := none
    changed_files := none
    commits := none }

/-- The same pull request observed again without the merged fields. -/
def c8Obs2 : PullObs :=
  { c8Obs1 with
    merged_at := none
    merged_by := none
    merge_commit_sha := none
    updated_at := some 30 }

/-- Witness for C8's amended statement at a concrete observation. -/
theorem merged_fields_overwritten_witness :
    (⟨1, 0, 0, 0, 0, 0, 0, some 5, some "abc", some 8, some "h1", some "b1", 0, 0,
        6⟩ : PullRequestRow) ∈
      (process_pr Db.empty 0 ⟨"acme", "widget"⟩ c8Obs1).db.prs
    ∧ ((⟨1, 0, 0, 0, 0, 0, 0, some 5, some "abc", some 8, some "h1", some "b1", 0, 0,
        6⟩ : PullRequestRow).merged_at_timestamp = c8Obs1.merged_at
      ∧ (⟨1, 0, 0, 0, 0, 0, 0, some 5, some "abc", some 8, some "h1", some "b1", 0, 0,
        6⟩ : PullRequestRow).merge_commit_sha = c8Obs1.merge_commit_sha
      ∧ (⟨1, 0, 0, 0, 0, 0, 0, some 5, some "abc", some 8, some "h1", some "b1", 0, 0,
        6⟩ : PullRequestRow).merged_by = c8Obs1.merged_by.map (fun x => x.id)
      ∧ (⟨1, 0, 0, 0, 0, 0, 0, some 5, some "abc", some 8, some "h1", some "b1", 0, 0,
        6⟩ : PullRequestRow).head_sha = some c8Obs1.head_sha
      ∧ (⟨1, 0, 0, 0, 0, 0, 0, some 5, some "abc", some 8, some "h1", some "b1", 0, 0,
        6⟩ : PullRequestRow).base_sha = some c8Obs1.base_sha) :=
  ⟨by decide,
   merged_fields_overwritten Db.empty 0 ⟨"acme", "widget"⟩ c8Obs1 ⟨7, "alice", none⟩
     (by decide) _ (by decide) (by decide)⟩

/-- C8 as stated is false: a second observation of the same pull request
without merged fields clears the previously non-null
`merged_at_timestamp` and `merged_by` back to null. -/
theorem merged_fields_cleared_counterexample :
    ((process_pr Db.empty 0 ⟨"acme", "widget"⟩ c8Obs1).db.prs.map
      (fun r => r.merged_at_timestamp)) = [some 5]
    ∧ ((process_pr (process_pr Db.empty 0 ⟨"acme", "widget"⟩ c8Obs1).db 0
        ⟨"acme", "widget"⟩ c8Obs2).db.prs.map (fun r => r.merged_at_timestamp)) = [none]
    ∧ ((process_pr (process_pr Db.empty 0 ⟨"acme", "widget"⟩ c8Obs1).db 0
        ⟨"acme", "widget"⟩ c8Obs2).db.prs.map (fun r => r.merged_by)) = [none] := by
  decide

/-- C7 (amended): for every processed issue, a New classification
enqueues a Comments request with a null `since_timestamp`, an Updated
classification enqueues one whose `since_timestamp` is the issue's raw
updated timestamp (the 100-second slack is subtracted later, when the
request is executed, not at enqueue time), and Unchanged enqueues
nothing. -/
theorem comments_request_policy :
    ∀ (db : Db) (now : Int) (repo : RepoRow) (obs : IssueObs),
      (process_issue db now repo obs).commentsReq =
        match (process_issue db now repo obs).status with
        | .New => some ⟨repo, obs.number, none, 0, none⟩
        | .Updated => some ⟨repo, obs.number, some obs.updated_at, 0, none⟩
        | .Unchanged => none := by
  intro db now repo obs
  have h : (process_issue db now repo obs).commentsReq =
      add_comments_updated_req (process_issue db now repo obs).status repo
        (some obs.updated_at) obs.number := rfl
  rw [h]
  cases (process_issue db now repo obs).status <;> rfl

/-- A store already holding issue 1 with `updated_timestamp = 500`, so a
re-observation with `updated_at = 1000` classifies as Updated. -/
def c7Db : Db :=
  { Db.empty with
    users := [⟨7, "alice", "alice"⟩]
    repos := [⟨"acme", "widget"⟩]
    shared := [⟨1, "t", "", 7, none, 10, 500, none, ⟨"acme", "widget"⟩, none, none,
      "None"⟩]
    issues := [⟨1⟩] }

/-- The re-observation of issue 1 with a bumped updated timestamp. -/
def c7Obs : IssueObs :=
  ⟨1, .Open, none, "t", none, ⟨7, "alice", none⟩, [], [], none, false, none,
   none, none, 10, 1000⟩

/-- C7 as stated is false: for an Updated issue the enqueued Comments
request carries the raw updated timestamp (1000), not the timestamp
minus the 100-second slack (900). -/
theorem comments_since_counterexample :
    (process_issue c7Db 99 ⟨"acme", "widget"⟩ c7Obs).status = .Updated
    ∧ (process_issue c7Db 99 ⟨"acme", "widget"⟩ c7Obs).commentsReq =
        some ⟨⟨"acme", "widget"⟩, 1, some 1000, 0, none⟩
    ∧ some (1000 : Int) ≠ some (c7Obs.updated_at - 100) := by
  decide

/-- A store holding issue 1 with an existing label link `l1` (cleared
outdated flag), about to observe label set `{l2}`. -/
def c1Db : Db :=
  { Db.empty with
    users := [⟨7, "alice", "alice"⟩]
    labels := [⟨"l1", "", "blue"⟩]
    repos := [⟨"acme", "widget"⟩]
    shared := [⟨1, "t", "", 7, none, 10, 20, none, ⟨"acme", "widget"⟩, none, none,
      "None"⟩]
    issues := [⟨1⟩]
    labelLinks := [⟨1, "l1", 0⟩] }

/-- The observation of issue 1 carrying label set `{l2}`. -/
def c1Obs : IssueObs :=
  ⟨1, .Open, none, "t", none, ⟨7, "alice", none⟩, [⟨"l2", none, "red"⟩], [],
   none, false, none, none, none, 10, 20⟩

/-- C1 at the failing input: the links with a cleared outdated flag do
equal the observed label set (the P3 half holds), but the still-outdated
`LabelLink (S, l1)` row is never handed back for deletion — the final
query of `update_label_assignments` joins the `Assignment` table, so its
deletion list is empty and the stale link row survives in the store with
`outdated = 1`. -/
theorem label_link_requery_bug :
    ((process_issue c1Db 99 ⟨"acme", "widget"⟩ c1Obs).db.labelLinks.filter
        (fun r => r.issue_or_pr == 1 && r.outdated == 0)).map (fun r => r.label) =
      ["l2"]
    ∧ (⟨1, "l1", 1⟩ : LabelLinkRow) ∈
        (process_issue c1Db 99 ⟨"acme", "widget"⟩ c1Obs).db.labelLinks
    ∧ (update_label_assignments_core c1Db 1 ["l2"]).2 = []
    ∧ (⟨1, "l1", 1⟩ : LabelLinkRow) ∈
        (update_label_assignments_core c1Db 1 ["l2"]).1.labelLinks := by
  decide

/-! ### Rate budgeter (`src/requests/limits.rs`), with the `f64`
arithmetic embedded as exact rationals and `Instant` as a `ℚ` timestamp -/

/-- `Priority` from `src/requests/mod.rs`; the declaration order gives
the discriminants Update = 0, Index = 1, Comments = 2. -/
inductive Priority where
  | Update
  | Index
  | Comments
deriving DecidableEq, Repr

/-- `Priority as i64`. -/
def Priority.toCategory : Priority → Int
  | .Update => 0
  | .Index => 1
  | .Comments => 2

/-- `Priority::fraction` (must add to 1.0). -/
def Priority.fraction : Priority → ℚ
  | .Update => 3 / 10
  | .Comments => 6 / 10
  | .Index => 1 / 10

/-- `Priority::ALL` in its declared iteration order. -/
def priorityAll : List Priority := [.Update, .Comments, .Index]

/-- `RequestLimits`: the per-category `(tokens, last_time)` pairs are laid
out as named fields (the source indexes `category_limits` by
discriminant). -/
structure RequestLimits where
  global_limit : ℕ
  updateTokens : ℚ
  updateTime : ℚ
  commentsTokens : ℚ
  commentsTime : ℚ
  indexTokens : ℚ
  indexTime : ℚ
  saved_up : ℚ
deriving DecidableEq, Repr

/-- `RequestLimits::new`: every category starts with
0.2 × limit × fraction tokens at the current instant, `saved_up = 0`. -/
def RequestLimits.new (limit : ℕ) (now : ℚ) : RequestLimits :=
  ⟨limit,
   1 / 5 * limit * Priority.fraction .Update, now,
   1 / 5 * limit * Priority.fraction .Comments, now,
   1 / 5 * limit * Priority.fraction .Index, now,
   0⟩

/-- The inner dequeue loop: while `tokens ≥ 1`, attempt one dequeue and
subtract one on success; `avail` is how many attempts will succeed
before the queue reports empty. -/
def runDequeues : ℚ → ℕ → ℚ
  | tokens, 0 => tokens
  | tokens, a + 1 => if 1 ≤ tokens then runDequeues (tokens - 1) a else tokens

/-- One category pass of `RequestLimits::update`: accrue
`elapsed/3600 × fraction × global_limit` plus the spill carried from the
previous category, run the dequeue loop, then clamp the tokens to the
ceiling `0.2 × global_limit × fraction`, spilling the excess.  Returns
`(new tokens, new last_time, spill)`. -/
def stepCategory (global : ℕ) (frac : ℚ) (tokens lastTime now savedIn : ℚ)
    (avail : ℕ) : ℚ × ℚ × ℚ :=
  let elapsed := max 0 (now - lastTime)
  let allowed := elapsed / 3600 * frac * global
  let t := runDequeues (tokens + allowed + savedIn) avail
  let limit := 1 / 5 * global * frac
  if limit ≤ t then (limit, now, t - limit) else (t, now, 0)

/-- `RequestLimits::update`, iterating the categories in
`Priority::ALL` order.  The last line reproduces the source verbatim:
`self.saved_up = saved_up.max(self.global_limit as f64 * 0.2)` — a
`max`, i.e. a lower bound, not the clamp the spec describes. -/
def RequestLimits.update (rl : RequestLimits) (now : ℚ) (avail : Priority → ℕ) :
    RequestLimits :=
  let u := stepCategory rl.global_limit (Priority.fraction .Update)
    rl.updateTokens rl.updateTime now rl.saved_up (avail .Update)
  let c := stepCategory rl.global_limit (Priority.fraction .Comments)
    rl.commentsTokens rl.commentsTime now u.2.2 (avail .Comments)
  let i := stepCategory rl.global_limit (Priority.fraction .Index)
    rl.indexTokens rl.indexTime now c.2.2 (avail .Index)
  { global_limit := rl.global_limit
    updateTokens := u.1
    updateTime := u.2.1
    commentsTokens := c.1
    commentsTime := c.2.1
    indexTokens := i.1
    indexTime := i.2.1
    saved_up := max i.2.2 (rl.global_limit * (1 / 5)) }

/-- C2 at the failing input: after ten idle hours with empty queues and
`global_limit = 100`, one `update` call leaves `saved_up = 1000`, far
above the 0.2 × global_limit = 20 ceiling the claim asserts; and even a
zero-elapsed tick with no surplus pushes `saved_up` up to exactly 20,
because the source's final line takes a `max` (a floor) instead of the
`min` a clamp would need. -/
theorem saved_up_not_clamped :
    ((RequestLimits.new 100 0).update 36000 (fun _ => 0)).saved_up = 1000
    ∧ ¬ ((RequestLimits.new 100 0).update 36000 (fun _ => 0)).saved_up ≤
        1 / 5 * (100 : ℚ)
    ∧ ((RequestLimits.new 100 0).update 0 (fun _ => 0)).saved_up = 20 := by
  refine ⟨?_, ?_, ?_⟩ <;>
    norm_num [RequestLimits.update, RequestLimits.new, stepCategory,
      runDequeues, Priority.fraction]

/-! ### Request queue (`src/lib.rs` `GithubDb::new` / `next_request`,
`src/requests/add.rs` `add_req`) -/

/-- A persisted `Request` row; the serialized payload is a type
parameter. -/
structure RequestRow (δ : Type) where
  category : Int
  sequence_number : Int
  name : String
  data : δ
deriving DecidableEq, Repr

/-- The scheduler state relevant to sequence numbers: the `AtomicI64`
counter and the persisted queue table. -/
structure QueueState (δ : Type) where
  counter : Int
  queue : List (RequestRow δ)
deriving DecidableEq, Repr

/-- Two's-complement wrap-around of an `i64` (what `AtomicI64::fetch_add`
does on overflow). -/
def wrap_i64 (z : Int) : Int := (z + 2 ^ 63) % 2 ^ 64 - 2 ^ 63

/-- `MAX(sequence_number)` over the queue table (`rows.max`). -/
def maxSeqNumber {δ : Type} (q : List (RequestRow δ)) : WithBot Int :=
  (q.map (fun r => r.sequence_number)).maximum

/-- The startup computation of `GithubDb::new`:
`MAX(sequence_number).unwrap_or(0) + 1` becomes the initial counter. -/
def startupCounter {δ : Type} (q : List (RequestRow δ)) : Int :=
  (maxSeqNumber q).unbot' 0 + 1

/-- The state `GithubDb::new` installs over a persisted queue. -/
def startupState {δ : Type} (q : List (RequestRow δ)) : QueueState δ :=
  ⟨startupCounter q, q⟩

/-- `add_req`: allocate the next sequence number with `fetch_add(1)` and
insert the row; the unique constraint on `sequence_number` makes the
insert panic on conflict (`.expect("duplicate sequence number")`),
modelled as `none`. -/
def add_req {δ : Type} (st : QueueState δ) (c : Int) (name : String) (data : δ) :
    Option (QueueState δ × Int) :=
  let sequence_number := st.counter
  if st.queue.any (fun r => r.sequence_number == sequence_number) then none
  else
    some (⟨wrap_i64 (st.counter + 1),
      st.queue ++ [⟨c, sequence_number, name, data⟩]⟩, sequence_number)

/-- A run of `add_req` calls, collecting the assigned sequence numbers. -/
def runAdds {δ : Type} : QueueState δ → List (Int × String × δ) →
    Option (QueueState δ × List Int)
  | st, [] => some (st, [])
  | st, (c, n, d) :: ds =>
    match add_req st c n d with
    | none => none
    | some (st', seq) =>
      match runAdds st' ds with
      | none => none
      | some (stF, seqs) => some (stF, seq :: seqs)

/-- Every persisted row's sequence number is strictly below the counter
`GithubDb::new` resumes with. -/
theorem lt_startupCounter {δ : Type} (q : List (RequestRow δ)) (r : RequestRow δ)
    (h : r ∈ q) : r.sequence_number < startupCounter q := by
  have h1 : (r.sequence_number : WithBot Int) ≤ maxSeqNumber q :=
    List.le_maximum_of_mem' (List.mem_map_of_mem _ h)
  unfold startupCounter
  cases hm : maxSeqNumber q with
  | bot =>
    rw [hm] at h1
    exact absurd h1 (by simp)
  | coe m =>
    rw [hm] at h1
    have := WithBot.coe_le_coe.1 h1
    simp only [WithBot.unbot'_coe]
    omega

/-- The consecutive run `c, c+1, …` of `n` sequence numbers. -/
def seqList (c : Int) : ℕ → List Int
  | 0 => []
  | n + 1 => c :: seqList (c + 1) n

theorem mem_seqList {x : Int} : ∀ {n : ℕ} {c : Int}, x ∈ seqList c n →
    c ≤ x ∧ x < c + n := by
  intro n
  induction n with
  | zero => intro c h; cases h
  | succ n ih =>
    intro c h
    rcases List.mem_cons.1 h with rfl | h
    · constructor
      · omega
      · have : (0 : Int) ≤ n := Int.ofNat_nonneg _
        push_cast
        omega
    · have := ih h
      push_cast at this ⊢
      omega

/-- The assigned numbers are strictly increasing. -/
theorem seqList_pairwise (c : Int) (n : ℕ) :
    (seqList c n).Pairwise (· < ·) := by
  induction n generalizing c with
  | zero => exact List.Pairwise.nil
  | succ n ih =>
    refine List.Pairwise.cons ?_ (ih (c + 1))
    intro y hy
    have := (mem_seqList hy).1
    omega

/-- A run of `add_req` calls from a state whose counter strictly bounds
every queued sequence number succeeds, assigns the consecutive numbers
`counter, counter+1, …`, and keeps the queue free of duplicate sequence
numbers, provided the counter never reaches the `i64` overflow point. -/
theorem runAdds_spec {δ : Type} (ds : List (Int × String × δ)) :
    ∀ st : QueueState δ,
    (∀ r ∈ st.queue, r.sequence_number < st.counter) →
    -(2 ^ 63) ≤ st.counter →
    st.counter + ds.length < 2 ^ 63 →
    (st.queue.map (fun r => r.sequence_number)).Nodup →
    ∃ stF seqs, runAdds st ds = some (stF, seqs)
      ∧ seqs = seqList st.counter ds.length
      ∧ stF.queue.map (fun r => r.sequence_number) =
          st.queue.map (fun r => r.sequence_number) ++ seqs
      ∧ (stF.queue.map (fun r => r.sequence_number)).Nodup := by
  induction ds with
  | nil =>
    intro st _ _ _ h4
    exact ⟨st, [], rfl, rfl, by simp, h4⟩
  | cons d ds ih =>
    intro st h1 h2 h3 h4
    obtain ⟨c, n, dd⟩ := d
    have hlen : (0 : Int) ≤ ds.length := Int.ofNat_nonneg _
    have hlen' : ((((c, n, dd) :: ds).length : ℕ) : Int) = (ds.length : Int) + 1 := by
      simp only [List.length_cons]
      push_cast
      ring
    have hany : (st.queue.any (fun r => r.sequence_number == st.counter)) = false := by
      rw [List.any_eq_false]
      intro r hr
      have := h1 r hr
      simp only [beq_iff_eq]
      omega
    have hwrap : wrap_i64 (st.counter + 1) = st.counter + 1 := by
      unfold wrap_i64
      rw [hlen'] at h3
      omega
    have h1' : ∀ r ∈ st.queue ++ [(⟨c, st.counter, n, dd⟩ : RequestRow δ)],
        r.sequence_number < st.counter + 1 := by
      intro r hr
      rcases List.mem_append.1 hr with hl | hl
      · have := h1 r hl
        omega
      · rcases List.mem_singleton.1 hl with rfl
        simp
    have h2' : -(2 ^ 63) ≤ st.counter + 1 := by omega
    have h3' : st.counter + 1 + ds.length < 2 ^ 63 := by
      rw [hlen'] at h3
      omega
    have h4' : ((st.queue ++ [(⟨c, st.counter, n, dd⟩ : RequestRow δ)]).map
        (fun r => r.sequence_number)).Nodup := by
      simp only [List.map_append, List.map_cons, List.map_nil]
      rw [List.nodup_append]
      refine ⟨h4, List.nodup_singleton _, ?_⟩
      intro a ha hb
      rcases List.mem_singleton.1 hb with rfl
      obtain ⟨r, hr, hrs⟩ := List.mem_map.1 ha
      have := h1 r hr
      omega
    obtain ⟨stF, seqs, heq, hseqs, hqueue, hnodup⟩ :=
      ih ⟨st.counter + 1, st.queue ++ [⟨c, st.counter, n, dd⟩]⟩ h1' h2' h3' h4'
    refine ⟨stF, st.counter :: seqs, ?_, ?_, ?_, hnodup⟩
    · simp only [runAdds, add_req, hany, Bool.false_eq_true, if_false, hwrap]
      rw [heq]
    · rw [hseqs]
      rfl
    · rw [hqueue]
      simp only [List.map_append, List.map_cons, List.map_nil]
      simp

/-- C5: starting from a persisted queue with pairwise-distinct sequence
numbers, the counter resumes at `MAX(sequence_number).unwrap_or(0) + 1`,
every `add_req` succeeds and assigns the consecutive run
`counter, counter+1, …` — strictly increasing over the process lifetime
— and the queue never holds two rows with the same sequence number
(as long as the `i64` counter does not overflow). -/
theorem sequence_numbers_unique_monotone :
    ∀ (δ : Type) (q0 : List (RequestRow δ)) (ds : List (Int × String × δ)),
      (q0.map (fun r => r.sequence_number)).Nodup →
      -(2 ^ 63) ≤ startupCounter q0 →
      startupCounter q0 + ds.length < 2 ^ 63 →
      ∃ stF seqs, runAdds (startupState q0) ds = some (stF, seqs)
        ∧ seqs = seqList (startupCounter q0) ds.length
        ∧ seqs.Pairwise (· < ·)
        ∧ stF.queue.map (fun r => r.sequence_number) =
            q0.map (fun r => r.sequence_number) ++ seqs
        ∧ (stF.queue.map (fun r => r.sequence_number)).Nodup
        ∧ startupCounter q0 = (maxSeqNumber q0).unbot' 0 + 1 := by
  intro δ q0 ds h1 h2 h3
  obtain ⟨stF, seqs, heq, hseqs, hqueue, hnodup⟩ :=
    runAdds_spec ds (startupState q0) (fun r hr => lt_startupCounter q0 r hr) h2 h3 h1
  exact ⟨stF, seqs, heq, hseqs, hseqs ▸ seqList_pairwise _ _, hqueue, hnodup, rfl⟩

/-- A persisted queue with one row at sequence number 5. -/
def c5q0 : List (RequestRow Nat) := [⟨0, 5, "OldPr", 0⟩]

/-- Two enqueues after startup. -/
def c5ds : List (Int × String × Nat) := [(0, "NewPr", 1), (2, "Comments", 2)]

/-- Witness for C5: over a queue holding sequence number 5 the counter
resumes at 6 and two adds assign 6 and 7. -/
theorem sequence_numbers_unique_monotone_witness :
    (∃ stF seqs, runAdds (startupState c5q0) c5ds = some (stF, seqs)
      ∧ seqs = seqList (startupCounter c5q0) c5ds.length
      ∧ seqs.Pairwise (· < ·)
      ∧ stF.queue.map (fun r => r.sequence_number) =
          c5q0.map (fun r => r.sequence_number) ++ seqs
      ∧ (stF.queue.map (fun r => r.sequence_number)).Nodup
      ∧ startupCounter c5q0 = (maxSeqNumber c5q0).unbot' 0 + 1)
    ∧ seqList (startupCounter c5q0) c5ds.length = [6, 7] :=
  ⟨sequence_numbers_unique_monotone Nat c5q0 c5ds (by decide) (by decide)
     (by decide),
   by decide⟩

/-- The dequeue selection of `next_request`: the row with the minimum
sequence number among rows of category `c` (SQL `min` over the filtered
join). -/
def minSeqRow {δ : Type} (q : List (RequestRow δ)) (c : Int) :
    Option (RequestRow δ) :=
  (q.filter (fun r => r.category == c)).argmin (fun r => r.sequence_number)

/-- `next_request` (`src/lib.rs`): select the minimum-sequence row of the
category, delete it in the same transaction, deserialize its payload;
on deserialization failure log and loop to the next candidate. -/
def next_request {δ ρ : Type} [DecidableEq δ] (decode : δ → Option ρ) (c : Int)
    (q : List (RequestRow δ)) : Option ρ × List (RequestRow δ) :=
  match _h : minSeqRow q c with
  | none => (none, q)
  | some row =>
    match decode row.data with
    | some r => (some r, q.erase row)
    | none => next_request decode c (q.erase row)
termination_by q.length
decreasing_by
  have hmem : row ∈ q := List.mem_of_mem_filter (List.argmin_mem _h)
  have h1 := List.length_erase_of_mem hmem
  have h2 := List.length_pos_of_mem hmem
  omega

/-- C6: `next_request` returns none on an empty category; otherwise it
picks the minimum-sequence row of the category, deletes it whether or
not its payload deserializes, and on a poisoned payload proceeds to the
next candidate of the shortened queue rather than failing. -/
theorem next_request_spec {δ ρ : Type} [DecidableEq δ] (decode : δ → Option ρ)
    (c : Int) (q : List (RequestRow δ)) :
    ((∀ r ∈ q, r.category ≠ c) → next_request decode c q = (none, q))
    ∧ ∀ row, minSeqRow q c = some row →
        row ∈ q ∧ row.category = c
        ∧ (∀ r ∈ q, r.category = c → row.sequence_number ≤ r.sequence_number)
        ∧ (∀ p, decode row.data = some p →
            next_request decode c q = (some p, q.erase row))
        ∧ (decode row.data = none →
            next_request decode c q = next_request decode c (q.erase row)) := by
  constructor
  · intro hnone
    have hf : q.filter (fun r => r.category == c) = [] := by
      rw [List.filter_eq_nil_iff]
      intro r hr
      simpa using hnone r hr
    have hmin : minSeqRow q c = none := by
      unfold minSeqRow
      rw [hf]
      exact List.argmin_nil _
    rw [next_request]
    split
    · rfl
    · rename_i row h
      rw [hmin] at h
      cases h
  · intro row hmin
    have hmemf := List.argmin_mem hmin
    refine ⟨List.mem_of_mem_filter hmemf, ?_, ?_, ?_, ?_⟩
    · have := (List.mem_filter.1 hmemf).2
      simpa using this
    · intro r hr hc
      have hrf : r ∈ q.filter (fun x => x.category == c) :=
        List.mem_filter.2 ⟨hr, by simpa using hc⟩
      exact List.le_of_mem_argmin hrf hmin
    · intro p hp
      rw [next_request]
      split
      · rename_i h
        rw [hmin] at h
        cases h
      · rename_i row' h
        rw [hmin] at h
        cases h
        rw [hp]
    · intro hp
      rw [next_request]
      split
      · rename_i h
        rw [hmin] at h
        cases h
      · rename_i row' h
        rw [hmin] at h
        cases h
        rw [hp]

/-- The decoder of the C6 witness: payload 0 is poisoned. -/
def c6decode : Nat → Option Nat := fun n => if n == 0 then none else some n

/-- A queue whose minimum-sequence category-0 row is poisoned. -/
def c6q : List (RequestRow Nat) := [⟨0, 1, "x", 0⟩, ⟨0, 2, "y", 5⟩, ⟨1, 0, "z", 7⟩]

/-- The poisoned minimum row of `c6q` in category 0. -/
def c6row : RequestRow Nat := ⟨0, 1, "x", 0⟩

/-- The next candidate after the poisoned row is deleted. -/
def c6row2 : RequestRow Nat := ⟨0, 2, "y", 5⟩

/-- Witness for C6: the poisoned minimum row is deleted and dequeue
proceeds to the next candidate, which deserializes and is returned. -/
theorem next_request_spec_witness :
    minSeqRow c6q 0 = some c6row
    ∧ next_request c6decode 0 c6q = next_request c6decode 0 (c6q.erase c6row)
    ∧ next_request c6decode 0 (c6q.erase c6row) =
        (some 5, (c6q.erase c6row).erase c6row2)
    ∧ c6q.erase c6row = [⟨0, 2, "y", 5⟩, ⟨1, 0, "z", 7⟩]
    ∧ (c6q.erase c6row).erase c6row2 = [⟨1, 0, "z", 7⟩] :=
  ⟨by decide,
   ((next_request_spec c6decode 0 c6q).2 c6row (by decide)).2.2.2.2 (by decide),
   ((next_request_spec c6decode 0 (c6q.erase c6row)).2 c6row2
     (by decide)).2.2.2.1 5 (by decide),
   by decide, by decide⟩

/-! ### Request handler (`src/requests/handle.rs`) -/

/-- `ListType` from `src/requests/mod.rs`. -/
inductive ListType where
  | New
  | Old
deriving DecidableEq, Repr

/-- The follow-up request `handle_list_prs` enqueues: its priority, the
page number and the verbatim next url stored in the payload. -/
structure FollowUp where
  priority : Priority
  page : Nat
  url : Option String
deriving DecidableEq, Repr

/-- The `process_pr` loop of `handle_list_prs`, threading the store and
collecting each item's classification in upstream-delivered order. -/
def processPrs (db : Db) (now : Int) (repo : RepoRow) :
    List PullObs → Db × List ProcessStatus
  | [] => (db, [])
  | obs :: items =>
    let r := process_pr db now repo obs
    let rest := processPrs r.db now repo items
    (rest.1, r.status :: rest.2)

/-- The follow-up decision at the end of `handle_list_prs`:
`any_updated` holds when some item's classification was not Unchanged
(`!matches!(.., Unchanged)`), the next page number is `page + 1` when a
next url was returned and 0 otherwise; the `match (list_type,
any_updated)` re-enqueues New lists only on a change (at Update) and Old
lists always (at Update when changed, else Index). -/
def handle_list_prs_followup (list_type : ListType)
    (statuses : List ProcessStatus) (page_num : Nat) (next : Option String) :
    Option FollowUp :=
  let any_updated := statuses.any (fun s => s != ProcessStatus.Unchanged)
  let next_page_num := if next.isSome then page_num + 1 else 0
  match list_type, any_updated with
  | .New, true => some ⟨.Update, next_page_num, next⟩
  | .New, false => none
  | .Old, updated => some ⟨if updated then .Update else .Index, next_page_num, next⟩

/-- `handle_list_prs` after the fetch returned `(items, next)`: process
the items in order, then decide the follow-up enqueue. -/
def handle_list_prs (db : Db) (now : Int) (repo : RepoRow)
    (items : List PullObs) (page_num : Nat) (next : Option String)
    (list_type : ListType) : Db × Option FollowUp :=
  let r := processPrs db now repo items
  (r.1, handle_list_prs_followup list_type r.2 page_num next)

/-- C3: after a list page is processed, a New list enqueues a next-page
request (at Update) iff some item's classification was not Unchanged; an
Old list always enqueues one, at Update when some item changed and at
Index otherwise; and every follow-up carries page `page + 1` when a next
url was returned and page 0 when it was absent, with the url stored
verbatim. -/
theorem handle_list_prs_followup_spec :
    ∀ (db : Db) (now : Int) (repo : RepoRow) (items : List PullObs)
      (page_num : Nat) (next : Option String),
      ((handle_list_prs db now repo items page_num next .New).2 ≠ none ↔
        ∃ s ∈ (processPrs db now repo items).2, s ≠ ProcessStatus.Unchanged)
      ∧ (∀ fu, (handle_list_prs db now repo items page_num next .New).2 = some fu →
          fu.priority = .Update)
      ∧ (handle_list_prs db now repo items page_num next .Old).2 =
          some ⟨(if (processPrs db now repo items).2.any
                    (fun s => s != ProcessStatus.Unchanged)
                 then .Update else .Index),
                (if next.isSome then page_num + 1 else 0), next⟩
      ∧ (∀ lt fu, (handle_list_prs db now repo items page_num next lt).2 = some fu →
          fu.page = (if next.isSome then page_num + 1 else 0) ∧ fu.url = next) := by
  intro db now repo items page_num next
  refine ⟨?_, ?_, ?_, ?_⟩
  · cases hany : (processPrs db now repo items).2.any
        (fun s => s != ProcessStatus.Unchanged) with
    | false =>
      simp only [handle_list_prs, handle_list_prs_followup, hany]
      rw [List.any_eq_false] at hany
      simp only [ne_eq, not_true_eq_false, false_iff, not_exists, not_and]
      intro s hs hne
      have h2 := hany s hs
      simp only [bne_iff_ne, ne_eq, not_not] at h2
      exact hne h2
    | true =>
      simp only [handle_list_prs, handle_list_prs_followup, hany]
      rw [List.any_eq_true] at hany
      obtain ⟨s, hs, hne⟩ := hany
      simp only [ne_eq, reduceCtorEq, not_false_eq_true, true_iff]
      exact ⟨s, hs, by simpa using hne⟩
  · intro fu hfu
    cases hany : (processPrs db now repo items).2.any
        (fun s => s != ProcessStatus.Unchanged) with
    | false =>
      simp only [handle_list_prs, handle_list_prs_followup, hany,
        reduceCtorEq] at hfu
    | true =>
      simp only [handle_list_prs, handle_list_prs_followup, hany,
        Option.some.injEq] at hfu
      rw [← hfu]
  · rfl
  · intro lt fu hfu
    cases lt with
    | New =>
      cases hany : (processPrs db now repo items).2.any
          (fun s => s != ProcessStatus.Unchanged) with
      | false =>
        simp only [handle_list_prs, handle_list_prs_followup, hany,
          reduceCtorEq] at hfu
      | true =>
        simp only [handle_list_prs, handle_list_prs_followup, hany,
          Option.some.injEq] at hfu
        rw [← hfu]
        exact ⟨rfl, rfl⟩
    | Old =>
      cases hany : (processPrs db now repo items).2.any
          (fun s => s != ProcessStatus.Unchanged) with
      | false =>
        simp only [handle_list_prs, handle_list_prs_followup, hany,
          Option.some.injEq] at hfu
        rw [← hfu]
        exact ⟨rfl, rfl⟩
      | true =>
        simp only [handle_list_prs, handle_list_prs_followup, hany,
          Option.some.injEq] at hfu
        rw [← hfu]
        exact ⟨rfl, rfl⟩

/-- A fresh pull-request observation (classifies New on an empty store). -/
def c3Obs : PullObs :=
  { number := 2
    state := some .Open
    locked := false
    maintainer_can_modify := false
    title := some "t"
    user := some ⟨9, "carol", none⟩
    body := none
    labels := none
    active_lock_reason := none
    created_at := some 10
    updated_at := some 20
    closed_at := none
    mergeable := none
    mergeable_state := none
    merged_at := none
    merged_by := none
    merge_commit_sha := none
    assignee := none
    assignees := none
    rebaseable := none
    head_sha := "h2"
    base_sha := "b2"
    author_association := none
    draft := none
    additions := none
    deletions := none
    changed_files := none
    commits := none }

/-- Witness for C3 at a one-item changed page with a next url. -/
theorem handle_list_prs_followup_spec_witness :
    (handle_list_prs Db.empty 0 ⟨"acme", "widget"⟩ [c3Obs] 4 (some "u") .New).2 ≠ none
    ∧ (⟨.Update, 5, some "u"⟩ : FollowUp).priority = .Update
    ∧ ((⟨.Update, 5, some "u"⟩ : FollowUp).page =
        (if (some "u" : Option String).isSome then 4 + 1 else 0)
      ∧ (⟨.Update, 5, some "u"⟩ : FollowUp).url = some "u") :=
  ⟨(handle_list_prs_followup_spec Db.empty 0 ⟨"acme", "widget"⟩ [c3Obs] 4
      (some "u")).1.mpr (by decide),
   (handle_list_prs_followup_spec Db.empty 0 ⟨"acme", "widget"⟩ [c3Obs] 4
      (some "u")).2.1 ⟨.Update, 5, some "u"⟩ (by decide),
   (handle_list_prs_followup_spec Db.empty 0 ⟨"acme", "widget"⟩ [c3Obs] 4
      (some "u")).2.2.2 .New ⟨.Update, 5, some "u"⟩ (by decide)⟩

end GithubDb
